import Mathlib

/-!
A verification development for the Atmosphère debug-stub sources: the GDB
remote-protocol context of thermosphere, the charger power-control driver and
the debug filesystem timestamp accessor of libstratosphere. Definitions are
shallow embeddings of the corresponding C/C++ code; where the repository only
declares an operation (context.h carries no function bodies), the behaviour is
modelled from the specification and the definition says so.
-/

namespace Atmosphere

namespace Gdb

/-! ### PackedGdbHioRequest layout (src/thermosphere/src/gdb/context.h) -/

/-- Byte width of the C char type as compiled for thermosphere (aarch64). -/
def charBytes : Nat := 1

/-- Byte width of u32. -/
def u32Bytes : Nat := 4

/-- Byte width of u64. -/
def u64Bytes : Nat := 8

/-- Byte width of size_t on aarch64. -/
def sizeTBytes : Nat := 8

/-- Byte width of s64. -/
def s64Bytes : Nat := 8

/-- Byte width of the C int type on aarch64. -/
def intBytes : Nat := 4

/-- Byte width of the C bool type. -/
def boolBytes : Nat := 1

/-- Per-field byte size and ABI alignment of each PackedGdbHioRequest field,
straight from the struct declaration in context.h lines 30-46 under the
aarch64 ABI (a scalar aligns to its size; a char array aligns to 1):
char magic[4]; u32 version; char functionName[16+1]; char paramFormat[8+1];
u64 parameters[8]; size_t stringLengths[8]; s64 retval; int gdbErrno;
bool ctrlC. Each entry is (field name, byte size, alignment), in declaration
order. -/
def packedGdbHioRequestFieldSpecs : List (String × Nat × Nat) :=
  [("magic", 4 * charBytes, charBytes),
   ("version", u32Bytes, u32Bytes),
   ("functionName", (16 + 1) * charBytes, charBytes),
   ("paramFormat", (8 + 1) * charBytes, charBytes),
   ("parameters", 8 * u64Bytes, u64Bytes),
   ("stringLengths", 8 * sizeTBytes, sizeTBytes),
   ("retval", s64Bytes, s64Bytes),
   ("gdbErrno", intBytes, intBytes),
   ("ctrlC", boolBytes, boolBytes)]

/-- Round an offset up to the next multiple of an alignment. -/
def alignUp (off a : Nat) : Nat :=
  (off + a - 1) / a * a

/-- C struct layout of an unpacked struct: each field goes to the next offset
aligned for it. Entries of the result are (field name, byte offset, byte
size). -/
def layoutFields : Nat → List (String × Nat × Nat) → List (String × Nat × Nat)
  | _, [] => []
  | off, (n, sz, al) :: rest =>
      (n, alignUp off al, sz) :: layoutFields (alignUp off al + sz) rest

/-- End offset of the last laid-out field. -/
def layoutEnd : Nat → List (String × Nat × Nat) → Nat
  | off, [] => off
  | off, (_, sz, al) :: rest => layoutEnd (alignUp off al + sz) rest

/-- The struct alignment: the largest field alignment. -/
def maxAlign (fields : List (String × Nat × Nat)) : Nat :=
  fields.foldl (fun m f => max m f.2.2) 1

/-- The compiled byte layout of PackedGdbHioRequest on aarch64: each field's
offset and size, alignment padding included. -/
def packedGdbHioRequestLayout : List (String × Nat × Nat) :=
  layoutFields 0 packedGdbHioRequestFieldSpecs

/-- sizeof(PackedGdbHioRequest) on aarch64: the end of the last field padded
up to the struct alignment. -/
def packedGdbHioRequestSizeof : Nat :=
  alignUp (layoutEnd 0 packedGdbHioRequestFieldSpecs) (maxAlign packedGdbHioRequestFieldSpecs)

/-- The declared field sizes in declaration order, (field name, byte size). -/
def packedGdbHioRequestFieldSizes : List (String × Nat) :=
  packedGdbHioRequestFieldSpecs.map (fun f => (f.1, f.2.1))

/-- The field sizes the claim asserts, parametrised by the pointer width p and
the word width w it speaks of: 4-byte magic, 4-byte version, 17-byte
null-padded function name, 9-byte null-padded parameter-format string, 8
pointer-width scalar parameters, 8 word-width string-length fields, an 8-byte
signed return value, a word-width host error code and a 1-byte
interrupted-by-host flag, in that order. -/
def claimedHioLayout (p w : Nat) : List (String × Nat) :=
  [("magic", 4), ("version", 4), ("functionName", 17), ("paramFormat", 9),
   ("parameters", 8 * p), ("stringLengths", 8 * w), ("retval", 8),
   ("gdbErrno", w), ("ctrlC", 1)]

/-- Contiguous placement of a size list: each field directly after the
previous one, as the claim's byte-exact in-order reading implies. Entries are
(field name, byte offset, byte size). -/
def contiguousLayout : Nat → List (String × Nat) → List (String × Nat × Nat)
  | _, [] => []
  | off, (n, sz) :: rest => (n, off, sz) :: contiguousLayout (off + sz) rest

/-! ### GDBState (context.h lines 56-62) and the session lifecycle -/

/-- The session state enumeration, from GDBState in context.h lines 56-62. -/
inductive GDBState
  | disconnected
  | connected
  | attached
  | detaching
deriving DecidableEq, Repr

/-- Position of a session state in the forward progression order. -/
def GDBState.ord : GDBState → Nat
  | .disconnected => 0
  | .connected => 1
  | .attached => 2
  | .detaching => 3

/-- Modelled from the spec: the session lifecycle transitions. The lifecycle
functions (GDB_AttachToContext, GDB_DetachFromContext) are only declared in
context.h, so the transition relation follows spec section 3: link
establishment, explicit attach, explicit or error-driven detach, and
completion of the acknowledgment drain. -/
inductive GDBStateStep : GDBState → GDBState → Prop
  | linkEstablish : GDBStateStep .disconnected .connected
  | attachCmd : GDBStateStep .connected .attached
  | detachCmd : GDBStateStep .attached .detaching
  | drainComplete : GDBStateStep .detaching .disconnected

end Gdb

namespace Powctl

/-! ### Charger driver locking discipline
(src/libraries/libstratosphere/source/powctl/impl/board/nintendo/nx/
powctl_charger_driver.cpp) -/

/-- GPIO logic levels used by the charger driver. -/
inductive GpioValue
  | low
  | high
deriving DecidableEq, Repr

/-- Charge current states, from powctl ChargeCurrentState. -/
inductive ChargeCurrentState
  | notCharging
  | chargingForce20Percent
  | charging
  | unknown
deriving DecidableEq, Repr

/-- Primitive steps a charger-driver method performs, as far as the driver
mutex and the hardware accesses are concerned. -/
inductive DriverStep
  | lockAcquire
  | lockRelease
  | gpioGetValue
  | gpioSetValue (v : GpioValue)
  | bqGetForce20PercentChargeCurrent
  | bqSetForce20PercentChargeCurrent (b : Bool)
deriving DecidableEq, Repr

/-- Steps of ChargerDriver::GetChargerChargeCurrentState (lines 128-152) after
argument validation, as a function of the value the gpio read returns. The
gpio::GetValue call is issued before any lock is taken (the source notes at
line 133 that the mutex is not held there); only the bq24193 query that
follows on the charging path runs inside the locked retry macro. -/
def getChargerChargeCurrentStateSteps (gpioVal : GpioValue) : List DriverStep :=
  match gpioVal with
  | .high => [.gpioGetValue]
  | .low => [.gpioGetValue, .lockAcquire, .bqGetForce20PercentChargeCurrent, .lockRelease]

/-- Steps of ChargerDriver::SetChargerChargeCurrentState (lines 154-174) after
argument validation: the whole body runs under a scoped lock of the driver
mutex, and the unknown state performs no hardware access before returning the
invalid-argument result. -/
def setChargerChargeCurrentStateSteps (state : ChargeCurrentState) : List DriverStep :=
  match state with
  | .notCharging => [.lockAcquire, .gpioSetValue .high, .lockRelease]
  | .chargingForce20Percent =>
      [.lockAcquire, .gpioSetValue .low, .bqSetForce20PercentChargeCurrent true, .lockRelease]
  | .charging =>
      [.lockAcquire, .gpioSetValue .low, .bqSetForce20PercentChargeCurrent false, .lockRelease]
  | .unknown => [.lockAcquire, .lockRelease]

/-- Annotate every step of a trace with the lock depth in force when the step
executes (an acquisition takes effect for the steps that follow it). -/
def annotateLockDepth (d : Nat) : List DriverStep → List (DriverStep × Nat)
  | [] => []
  | s :: rest =>
      (s, d) :: annotateLockDepth
        (match s with
         | .lockAcquire => d + 1
         | .lockRelease => d - 1
         | _ => d) rest

end Powctl

namespace Fs

/-! ### Debug timestamp accessor
(src/libraries/libstratosphere/source/fs/fsa/fs_user_filesystem_for_debug.cpp) -/

/-- Environment abstracting the mount table and filesystem accessor consulted
by fs::GetFileTimeStamp: resolution of a path to an accessor (by index)
together with the remaining sub-path, and the accessor's raw timestamp query.
The error and timestamp-record types stay abstract. -/
structure FsEnv (E T : Type) where
  findFileSystem : String → Except E (Nat × String)
  accessorGetFileTimeStampRaw : Nat → String → Except E T

/-- impl::GetFileTimeStampRawForDebug, lines 27-35: find the filesystem for
the path, then query the accessor, propagating the first failure. -/
def GetFileTimeStampRawForDebug (env : FsEnv E T) (path : String) : Except E T :=
  match env.findFileSystem path with
  | .error e => .error e
  | .ok (accessor, subPath) => env.accessorGetFileTimeStampRaw accessor subPath

/-- fs::GetFileTimeStamp, lines 39-46: the raw record is fetched into a local
and copied byte-for-byte into the out record only after a successful R_TRY
(the two record types have equal size by the static assertion, so the copy is
equality on the common record type). The pair returned is the call result
together with the final value of the out record, whose prior value is out0. -/
def GetFileTimeStamp (env : FsEnv E T) (path : String) (out0 : T) :
    Except E Unit × T :=
  match GetFileTimeStampRawForDebug env path with
  | .ok raw => (.ok (), raw)
  | .error e => (.error e, out0)

/-- Whether a fallible result is a success. -/
def exceptIsOk : Except E A → Bool
  | .ok _ => true
  | .error _ => false

/-- A concrete environment for evaluating the timestamp accessor: one mounted
filesystem whose accessor reports timestamp record 7 for every file. -/
def fsEnvExample : FsEnv Nat Nat :=
  ⟨fun p => .ok (1, p), fun _ _ => .ok 7⟩

end Fs

namespace Codec

/-! ### Packet codec
Modelled from the spec: the codec sources are not in the repository snapshot
(context.h only declares the context), so encode and decode follow spec
sections 4.1 and 6: a packet is start marker, payload, delimiter and a
two-hex-digit checksum equal to the sum of the transmitted payload bytes
modulo 256; a designated escape byte XORs the following byte with a fixed
mask, and a repeat marker expands the previous decoded byte. Bytes are
naturals below 256. -/

/-- The packet start marker byte. -/
def startByte : Nat := 0x24

/-- The checksum delimiter byte. -/
def delimByte : Nat := 0x23

/-- The escape byte: the byte after it is decoded by XOR with the mask. -/
def escapeByte : Nat := 0x7d

/-- The fixed escape mask. -/
def escapeMask : Nat := 0x20

/-- The run-length repeat marker byte. -/
def repeatByte : Nat := 0x2a

/-- The positive acknowledgment byte. -/
def ackByte : Nat := 0x2b

/-- The negative acknowledgment byte. -/
def nakByte : Nat := 0x2d

/-- Whether a payload byte must be escaped before transmission: the framing
bytes, the escape byte itself and the repeat marker. -/
def mustEscape (b : Nat) : Bool :=
  b == startByte || b == delimByte || b == escapeByte || b == repeatByte

/-- Escape a payload for transmission: each byte that must be escaped is
replaced by the escape byte followed by the byte XORed with the mask. -/
def escapeBytes : List Nat → List Nat
  | [] => []
  | b :: rest =>
      if mustEscape b then escapeByte :: (b ^^^ escapeMask) :: escapeBytes rest
      else b :: escapeBytes rest

/-- Decode the transmitted payload bytes: an escape byte XORs the byte after
it with the mask; a repeat marker followed by a count byte expands the
previous decoded byte by count - 29 further copies; any other byte stands for
itself. prev is the previous decoded byte, if any. -/
def unescapeBytes (prev : Option Nat) : List Nat → List Nat
  | [] => []
  | b :: rest =>
      if b == escapeByte then
        match rest with
        | [] => []
        | c :: rest2 => (c ^^^ escapeMask) :: unescapeBytes (some (c ^^^ escapeMask)) rest2
      else if b == repeatByte then
        match rest with
        | [] => []
        | n :: rest2 =>
            match prev with
            | none => unescapeBytes none rest2
            | some p => List.replicate (n - 29) p ++ unescapeBytes (some p) rest2
      else b :: unescapeBytes (some b) rest

/-- Checksum: sum of the transmitted payload bytes modulo 256. -/
def checksum (l : List Nat) : Nat :=
  (l.foldl (· + ·) 0) % 256

/-- Lower-case hexadecimal digit byte for a value below 16. -/
def hexDigit (n : Nat) : Nat :=
  if n < 10 then 48 + n else 87 + n

/-- The two checksum digit bytes for a checksum value. -/
def checksumDigits (c : Nat) : List Nat :=
  [hexDigit (c / 16), hexDigit (c % 16)]

/-- Hexadecimal value of a digit byte, accepting both letter cases; none when
the byte is not a hexadecimal digit. -/
def hexVal (b : Nat) : Option Nat :=
  if 48 ≤ b && b ≤ 57 then some (b - 48)
  else if 97 ≤ b && b ≤ 102 then some (b - 87)
  else if 65 ≤ b && b ≤ 70 then some (b - 55)
  else none

/-- Encode a reply payload: escape it, then frame it between the start marker
and the delimiter followed by the checksum of the transmitted bytes. -/
def encode (payload : List Nat) : List Nat :=
  startByte :: escapeBytes payload ++ delimByte :: checksumDigits (checksum (escapeBytes payload))

/-- Outcome of a decode attempt. -/
inductive DecodeResult
  | command (payload : List Nat)
  | needMoreBytes
  | malformed
deriving DecidableEq, Repr

/-- Drop stream bytes up to and including the first start marker; none when no
start marker has arrived yet. -/
def dropToStart : List Nat → Option (List Nat)
  | [] => none
  | b :: rest => if b == startByte then some rest else dropToStart rest

/-- Split the bytes that follow the start marker at the first delimiter,
returning the raw payload and the bytes after the delimiter; none when the
delimiter has not arrived yet. -/
def splitAtDelim : List Nat → Option (List Nat × List Nat)
  | [] => none
  | b :: rest =>
      if b == delimByte then some ([], rest)
      else
        match splitAtDelim rest with
        | none => none
        | some (p, r) => some (b :: p, r)

/-- Decode one packet from the byte stream: find the start marker, take the
raw payload up to the delimiter, read the two checksum digit bytes and
compare their value with the checksum of the raw payload. On a match the
payload is unescaped and dispatched as a command, with the acknowledgment
byte emitted first unless no-ack mode is active; on a mismatch (or a
non-digit checksum byte) the negative acknowledgment byte is emitted, again
unless no-ack mode is active. An incomplete stream asks for more bytes. The
result is the decode outcome paired with the byte emitted, if any. -/
def decode (noAckMode : Bool) (stream : List Nat) : DecodeResult × Option Nat :=
  match dropToStart stream with
  | none => (.needMoreBytes, none)
  | some afterStart =>
      match splitAtDelim afterStart with
      | none => (.needMoreBytes, none)
      | some (raw, rest) =>
          match rest with
          | c1 :: c2 :: _ =>
              match hexVal c1, hexVal c2 with
              | some h1, some h2 =>
                  if h1 * 16 + h2 == checksum raw then
                    (.command (unescapeBytes none raw), if noAckMode then none else some ackByte)
                  else
                    (.malformed, if noAckMode then none else some nakByte)
              | _, _ => (.malformed, if noAckMode then none else some nakByte)
          | _ => (.needMoreBytes, none)

end Codec

namespace Gdb

/-! ### Session event bookkeeping and the debug event synchronizer
Modelled from the spec: context.h declares the context record and the
lifecycle entry points but carries no bodies, so the operations follow spec
sections 3, 4.3 and 4.5. The u32 core bitmasks of GDBContext
(attachedCoreList, sentDebugEventCoreList, acknowledgedDebugEventCoreList)
are embedded as sets of core ids. -/

/-- The per-session core bookkeeping the debug event handshake mutates: the
session state, the attached cores and the two event bitsets. -/
structure SessionCores where
  state : GDBState
  attached : Finset Nat
  sent : Finset Nat
  acked : Finset Nat
deriving DecidableEq

/-- Modelled from the spec: the session operations that touch the event
bitsets. -/
inductive SessionOp
  | sendEvent (c : Nat)
  | ackEvent (c : Nat)
  | continueStep (c : Nat)
  | attach (cores : Finset Nat)
  | detach

/-- Modelled from the spec, sections 4.3 and 4.5: event transmission sets the
core's sent bit when the session is attached to that core; the host's
acknowledgment marks a sent core acknowledged; continue/step clears both bits
for the resumed core; attach initialises the bitsets from the requested cores
and enters the attached state; detach treats outstanding sent events as
acknowledged, clears all bitsets and disconnects. -/
def SessionOp.apply : SessionOp → SessionCores → SessionCores
  | .sendEvent c, s =>
      if s.state = .attached ∧ c ∈ s.attached then { s with sent := insert c s.sent } else s
  | .ackEvent c, s =>
      if c ∈ s.sent then { s with acked := insert c s.acked } else s
  | .continueStep c, s =>
      { s with sent := s.sent.erase c, acked := s.acked.erase c }
  | .attach cores, _ =>
      { state := .attached, attached := cores, sent := ∅, acked := ∅ }
  | .detach, _ =>
      { state := .disconnected, attached := ∅, sent := ∅, acked := ∅ }

/-- A host-visible event in the all-stop synchronizer history: a stop
notification emitted for a core, or the host's acknowledgment of the
outstanding notification for a core. -/
inductive SyncEvent
  | emit (c : Nat)
  | ack (c : Nat)
deriving DecidableEq, Repr

/-- Modelled from the spec, section 4.3: the all-stop synchronizer state.
pending lists the cores whose trap has been observed but not yet reported, in
observation order (per-core state EventPendingSend); outSent lists the cores
whose notification has been transmitted but not acknowledged (per-core state
EventSentAwaitingAck) — a list, so that holding at most one entry is a proved
property rather than a typing artefact. history records notifications and
acknowledgments in the order the host observes them. -/
structure SyncState where
  attached : Finset Nat
  pending : List Nat
  outSent : List Nat
  history : List SyncEvent
deriving DecidableEq

/-- Modelled from the spec: the synchronizer operations — a core traps, the
synchronizer transmits the next queued notification, the host acknowledges
the outstanding one. -/
inductive SyncOp
  | trap (c : Nat)
  | sendNext
  | hostAck

/-- Modelled from the spec, section 4.3: a trap on an attached, running core
appends it to the pending queue; sendNext fires only when no notification is
outstanding and reports the head of the pending queue; the host's
acknowledgment retires the outstanding notification. -/
def SyncOp.apply : SyncOp → SyncState → SyncState
  | .trap c, s =>
      if c ∈ s.attached ∧ c ∉ s.pending ∧ c ∉ s.outSent then
        { s with pending := s.pending ++ [c] }
      else s
  | .sendNext, s =>
      match s.pending, s.outSent with
      | c :: rest, [] =>
          { s with pending := rest, outSent := [c], history := s.history ++ [.emit c] }
      | _, _ => s
  | .hostAck, s =>
      match s.outSent with
      | c :: rest => { s with outSent := rest, history := s.history ++ [.ack c] }
      | [] => s

/-- The synchronizer state right after attaching to a set of cores. -/
def SyncState.init (cores : Finset Nat) : SyncState :=
  ⟨cores, [], [], []⟩

/-- Run a sequence of synchronizer operations from the attached state. -/
def syncRun (cores : Finset Nat) (ops : List SyncOp) : SyncState :=
  ops.foldl (fun s op => op.apply s) (SyncState.init cores)

/-- The scenario of the spec's event-ordering property: traps on cores 2, 0
and 1 in that order, then the drain — including one premature transmission
attempt while core 2's notification is still unacknowledged, which must do
nothing. -/
def orderingScenarioOps : List SyncOp :=
  [.trap 2, .trap 0, .trap 1, .sendNext, .sendNext, .hostAck,
   .sendNext, .hostAck, .sendNext, .hostAck]

/-! ### HIO bridge (spec section 4.4) -/

/-- A reply the HIO machinery produces for a begin or complete step. -/
inductive HioReply
  | accepted
  | errorReply
  | completed
deriving DecidableEq, Repr

/-- Modelled from the spec: the per-session HIO bookkeeping —
currentHioRequestTargetAddr of GDBContext, with 0 the null address meaning no
request, together with the ghost flag recording whether a call is outstanding
(begun and not yet completed). -/
structure HioSession where
  currentHioRequestTargetAddr : Nat
  outstanding : Bool
deriving DecidableEq, Repr

/-- Modelled from the spec: the HIO operations — the debuggee begins a call
with its request record at a target address, and the host's reply completes
the outstanding call. -/
inductive HioOp
  | beginCall (addr : Nat)
  | completeCall

/-- Modelled from the spec, section 4.4: a second request while one is
outstanding is rejected with an error reply and changes nothing; otherwise
beginCall records the (non-null) target address, and completeCall writes the
results back and clears it. -/
def HioOp.apply : HioOp → HioSession → HioSession × HioReply
  | .beginCall addr, s =>
      if s.currentHioRequestTargetAddr ≠ 0 then (s, .errorReply)
      else if addr = 0 then (s, .errorReply)
      else ({ currentHioRequestTargetAddr := addr, outstanding := true }, .accepted)
  | .completeCall, s =>
      if s.currentHioRequestTargetAddr ≠ 0 then
        ({ currentHioRequestTargetAddr := 0, outstanding := false }, .completed)
      else (s, .errorReply)

/-- The session before any HIO activity. -/
def HioSession.init : HioSession :=
  ⟨0, false⟩

/-- Run a sequence of HIO operations from the initial session. -/
def hioRun (ops : List HioOp) : HioSession :=
  ops.foldl (fun s op => (op.apply s).1) HioSession.init

/-- Read len bytes of target memory starting at addr. -/
def readBytes (mem : List Nat) (addr len : Nat) : List Nat :=
  (mem.drop addr).take len

/-- Little-endian value of a byte list. -/
def leValue : List Nat → Nat
  | [] => 0
  | b :: rest => b + 256 * leValue rest

/-- The required magic bytes of a call-request record: "GDB" and a null. -/
def hioMagic : List Nat :=
  [71, 68, 66, 0]

/-- The request version this bridge implements. -/
def hioVersion : Nat := 1

/-- Modelled from the spec, section 4.4: on the debuggee's HIO trap the bridge
reads the record header at the target address and validates magic and
version. A mismatch aborts the attempt, leaving the session and target memory
untouched and reporting failure; on a match the call becomes the session's
outstanding request (the record is only read at this point — write-back
happens at completion), unless a call is already outstanding, in which case
the begin step itself rejects it. -/
def hioBridgeBegin (s : HioSession) (mem : List Nat) (addr : Nat) :
    HioSession × List Nat × Bool :=
  if readBytes mem addr 4 = hioMagic ∧ leValue (readBytes mem (addr + 4) 4) = hioVersion then
    match (HioOp.beginCall addr).apply s with
    | (s2, .accepted) => (s2, mem, true)
    | (s2, _) => (s2, mem, false)
  else (s, mem, false)

end Gdb

namespace Gdb

/-! ## Theorems -/

/-- Claim C6, counterexample: the claimed byte-exact layout is false of the
compiled record in two independent ways. No single word width matches even
the declared field sizes, since stringLengths is 8-byte size_t while gdbErrno
is a 4-byte int; and no choice of widths makes the claimed contiguous
in-order placement equal the ABI byte layout, since the unpacked struct puts
the parameters array at offset 40 — after 6 alignment padding bytes — where
a contiguous placement puts it at 34. -/
theorem hio_layout_claim_false :
    (¬ ∃ p w, claimedHioLayout p w = packedGdbHioRequestFieldSizes) ∧
    (¬ ∃ p w, contiguousLayout 0 (claimedHioLayout p w) = packedGdbHioRequestLayout) := by
  constructor
  · rintro ⟨p, w, h⟩
    simp only [claimedHioLayout, packedGdbHioRequestFieldSizes, packedGdbHioRequestFieldSpecs,
      charBytes, u32Bytes, u64Bytes, sizeTBytes, s64Bytes, intBytes, boolBytes,
      List.map_cons, List.map_nil, List.cons.injEq, Prod.mk.injEq, and_true, true_and] at h
    omega
  · rintro ⟨p, w, h⟩
    simp only [claimedHioLayout, contiguousLayout, packedGdbHioRequestLayout,
      packedGdbHioRequestFieldSpecs, layoutFields, alignUp, charBytes, u32Bytes, u64Bytes,
      sizeTBytes, s64Bytes, intBytes, boolBytes, List.cons.injEq, Prod.mk.injEq] at h
    omega

/-- Claim C6 (amended): on aarch64 the call-request record keeps the claimed
field order and sizes, but at ABI-aligned offsets — the 4-byte magic at
offset 0, the 4-byte version at 4, the 17-byte null-padded function name at
8, the 9-byte null-padded parameter-format string at 25, the 8 pointer-width
(8-byte) scalar parameters at 40 after 6 alignment padding bytes, the 8
pointer-width (8-byte, size_t) string-length fields at 104, the 8-byte
signed return value at 168, the 4-byte int host error code at 176 and the
1-byte interrupted-by-host flag at 180 — and sizeof 184 after 3 tail padding
bytes. -/
theorem packedGdbHioRequest_abi_layout :
    packedGdbHioRequestLayout =
      [("magic", 0, 4), ("version", 4, 4), ("functionName", 8, 17),
       ("paramFormat", 25, 9), ("parameters", 40, 64), ("stringLengths", 104, 64),
       ("retval", 168, 8), ("gdbErrno", 176, 4), ("ctrlC", 180, 1)] ∧
    packedGdbHioRequestSizeof = 184 := by
  decide

/-- Claim C7: the session state ranges over the four-state enumeration and
every lifecycle transition is a forward step in the order Disconnected →
Connected → Attached → Detaching, except that completing a detach resets
Detaching to Disconnected. -/
theorem gdbState_forward_progression (s t : GDBState) (h : GDBStateStep s t) :
    s.ord < t.ord ∨ (s = GDBState.detaching ∧ t = GDBState.disconnected) := by
  cases h <;> simp [GDBState.ord]

/-- The progression theorem at the link-establishment transition. -/
theorem gdbState_forward_progression_witness :
    GDBState.disconnected.ord < GDBState.connected.ord ∨
      (GDBState.disconnected = GDBState.detaching ∧
        GDBState.connected = GDBState.disconnected) :=
  gdbState_forward_progression GDBState.disconnected GDBState.connected
    GDBStateStep.linkEstablish

/-- Claim C1: every session operation — event transmission, acknowledgment,
continue/step, attach, detach — preserves the invariant that the acknowledged
event core set is a subset of the sent event core set. -/
theorem sessionOp_preserves_acked_subset_sent (op : SessionOp) (s : SessionCores)
    (h : s.acked ⊆ s.sent) :
    (SessionOp.apply op s).acked ⊆ (SessionOp.apply op s).sent := by
  cases op with
  | sendEvent c =>
      simp only [SessionOp.apply]
      split
      · exact h.trans (Finset.subset_insert _ _)
      · exact h
  | ackEvent c =>
      simp only [SessionOp.apply]
      split
      · next hc => exact Finset.insert_subset hc h
      · exact h
  | continueStep c =>
      exact Finset.erase_subset_erase _ h
  | attach cores =>
      simp [SessionOp.apply]
  | detach =>
      simp [SessionOp.apply]

/-- The preservation theorem at an acknowledgment for core 1 of a session
with core 1 sent. -/
theorem sessionOp_preserves_acked_subset_sent_witness :
    (SessionOp.apply (SessionOp.ackEvent 1) ⟨GDBState.attached, {0, 1}, {1}, ∅⟩).acked ⊆
      (SessionOp.apply (SessionOp.ackEvent 1) ⟨GDBState.attached, {0, 1}, {1}, ∅⟩).sent :=
  sessionOp_preserves_acked_subset_sent (SessionOp.ackEvent 1)
    ⟨GDBState.attached, {0, 1}, {1}, ∅⟩ (by decide)

/-- Each HIO operation preserves the invariant that the pending target address
is non-null exactly while a call is outstanding. -/
theorem hioOp_preserves_addr_iff (op : HioOp) (s : HioSession)
    (h : s.currentHioRequestTargetAddr ≠ 0 ↔ s.outstanding = true) :
    ((HioOp.apply op s).1.currentHioRequestTargetAddr ≠ 0 ↔
      (HioOp.apply op s).1.outstanding = true) := by
  cases op with
  | beginCall addr =>
      simp only [HioOp.apply]
      split
      · exact h
      · split
        · exact h
        · next ha => simp [ha]
  | completeCall =>
      simp only [HioOp.apply]
      split
      · simp
      · exact h

/-- Claim C3: over every run of the HIO machinery, the pending target address
currentHioRequestTargetAddr is non-null exactly while a call is outstanding,
and a begin request arriving while one is pending is rejected with an error
reply and leaves the session unchanged. -/
theorem hio_single_outstanding :
    (∀ ops : List HioOp,
      ((hioRun ops).currentHioRequestTargetAddr ≠ 0 ↔ (hioRun ops).outstanding = true)) ∧
    (∀ (s : HioSession) (addr : Nat), s.currentHioRequestTargetAddr ≠ 0 →
      HioOp.apply (HioOp.beginCall addr) s = (s, HioReply.errorReply)) := by
  constructor
  · intro ops
    suffices hgen : ∀ s : HioSession, (s.currentHioRequestTargetAddr ≠ 0 ↔ s.outstanding = true) →
        (((ops.foldl (fun s op => (HioOp.apply op s).1) s).currentHioRequestTargetAddr ≠ 0) ↔
          (ops.foldl (fun s op => (HioOp.apply op s).1) s).outstanding = true) by
      exact hgen HioSession.init (by simp [HioSession.init])
    induction ops with
    | nil => intro s hs; exact hs
    | cons op rest ih => intro s hs; exact ih _ (hioOp_preserves_addr_iff op s hs)
  · intro s addr hpending
    simp only [HioOp.apply]
    rw [if_pos hpending]

/-- The HIO theorem at a run of one accepted call, and at a second begin
request against a session whose pending address is 4096. -/
theorem hio_single_outstanding_witness :
    ((hioRun [HioOp.beginCall 4096]).currentHioRequestTargetAddr ≠ 0 ↔
      (hioRun [HioOp.beginCall 4096]).outstanding = true) ∧
    HioOp.apply (HioOp.beginCall 8192) ⟨4096, true⟩ = (⟨4096, true⟩, HioReply.errorReply) :=
  ⟨hio_single_outstanding.1 [HioOp.beginCall 4096],
   hio_single_outstanding.2 ⟨4096, true⟩ 8192 (by decide)⟩

/-- Claim C8: an HIO bridging attempt whose record fails the magic or version
validation is aborted with no write to target memory and no change to the
session. -/
theorem hioBridge_fail_closed (s : HioSession) (mem : List Nat) (addr : Nat)
    (h : readBytes mem addr 4 ≠ hioMagic ∨ leValue (readBytes mem (addr + 4) 4) ≠ hioVersion) :
    hioBridgeBegin s mem addr = (s, mem, false) := by
  unfold hioBridgeBegin
  rw [if_neg (not_and_or.mpr h)]

/-- The fail-closed theorem at a memory image whose magic bytes are zero. -/
theorem hioBridge_fail_closed_witness :
    hioBridgeBegin ⟨0, false⟩ [0, 0, 0, 0, 1, 0, 0, 0] 0 =
      (⟨0, false⟩, [0, 0, 0, 0, 1, 0, 0, 0], false) :=
  hioBridge_fail_closed ⟨0, false⟩ [0, 0, 0, 0, 1, 0, 0, 0] 0 (Or.inl (by decide))

/-- Each synchronizer operation keeps at most one notification outstanding. -/
theorem syncOp_outSent_length (op : SyncOp) (s : SyncState)
    (h : s.outSent.length ≤ 1) : (SyncOp.apply op s).outSent.length ≤ 1 := by
  obtain ⟨att, pend, outs, hist⟩ := s
  cases op with
  | trap c =>
      simp only [SyncOp.apply]
      split
      · exact h
      · exact h
  | sendNext =>
      cases pend with
      | nil => exact h
      | cons c rest =>
          cases outs with
          | nil => simp [SyncOp.apply]
          | cons d ds => exact h
  | hostAck =>
      cases outs with
      | nil => exact h
      | cons d ds =>
          simp only [SyncOp.apply, List.length_cons] at h ⊢
          omega

/-- At most one notification is outstanding after any run from the attached
state. -/
theorem syncRun_outSent_length (cores : Finset Nat) (ops : List SyncOp) :
    (syncRun cores ops).outSent.length ≤ 1 := by
  suffices hgen : ∀ s : SyncState, s.outSent.length ≤ 1 →
      (ops.foldl (fun s op => op.apply s) s).outSent.length ≤ 1 by
    exact hgen (SyncState.init cores) (by simp [SyncState.init])
  induction ops with
  | nil => intro s hs; exact hs
  | cons op rest ih =>
      intro s hs
      exact ih _ (syncOp_outSent_length op s hs)

/-- Claim C2: in all-stop mode at most one core is in EventSentAwaitingAck in
any reachable synchronizer state; a notification is only ever emitted for the
head of the pending queue, and only when the prior notification has been
acknowledged; and the scenario of traps on cores 2, 0 and 1 in that order,
attached to all three, produces host-observed notifications in the order 2,
0, 1, each next one emitted only after the prior acknowledgment. -/
theorem allstop_event_ordering :
    (∀ (cores : Finset Nat) (ops : List SyncOp), (syncRun cores ops).outSent.length ≤ 1) ∧
    (∀ (s : SyncState) (c : Nat) (rest : List Nat), s.outSent = [] → s.pending = c :: rest →
      SyncOp.apply SyncOp.sendNext s =
        { s with pending := rest, outSent := [c],
                 history := s.history ++ [SyncEvent.emit c] }) ∧
    (syncRun {0, 1, 2} orderingScenarioOps).history =
      [SyncEvent.emit 2, SyncEvent.ack 2, SyncEvent.emit 0, SyncEvent.ack 0,
       SyncEvent.emit 1, SyncEvent.ack 1] := by
  refine ⟨syncRun_outSent_length, ?_, by decide⟩
  intro s c rest hout hpend
  obtain ⟨att, pend, outs, hist⟩ := s
  simp only at hout hpend
  subst hout
  subst hpend
  rfl

/-- The ordering theorem at a two-operation run and at a concrete send
against a session whose pending queue holds core 2. -/
theorem allstop_event_ordering_witness :
    (syncRun {0, 1, 2} [SyncOp.trap 2, SyncOp.sendNext]).outSent.length ≤ 1 ∧
    SyncOp.apply SyncOp.sendNext (⟨{2}, [2], [], []⟩ : SyncState) =
      (⟨{2}, [], [2], [SyncEvent.emit 2]⟩ : SyncState) :=
  ⟨allstop_event_ordering.1 {0, 1, 2} [SyncOp.trap 2, SyncOp.sendNext],
   allstop_event_ordering.2.1 ⟨{2}, [2], [], []⟩ 2 [] rfl rfl⟩

end Gdb

namespace Codec

/-- A byte that needs no escaping is none of the special bytes. -/
theorem of_mustEscape_eq_false {b : Nat} (h : mustEscape b = false) :
    b ≠ startByte ∧ b ≠ delimByte ∧ b ≠ escapeByte ∧ b ≠ repeatByte := by
  simp [mustEscape] at h
  tauto

/-- Transmitted (escaped) payload bytes are never framing bytes. -/
theorem escapeBytes_not_framing (p : List Nat) :
    ∀ b ∈ escapeBytes p, b ≠ delimByte ∧ b ≠ startByte := by
  induction p with
  | nil => intro b hb; simp [escapeBytes] at hb
  | cons a rest ih =>
      intro b hb
      by_cases ha : mustEscape a = true
      · rw [escapeBytes, if_pos ha] at hb
        rcases List.mem_cons.mp hb with rfl | hb2
        · exact ⟨by decide, by decide⟩
        rcases List.mem_cons.mp hb2 with rfl | hb3
        · simp only [mustEscape, Bool.or_eq_true, beq_iff_eq] at ha
          rcases ha with ((rfl | rfl) | rfl) | rfl <;> exact ⟨by decide, by decide⟩
        · exact ih b hb3
      · rw [escapeBytes, if_neg ha] at hb
        rcases List.mem_cons.mp hb with rfl | hb2
        · have hs := of_mustEscape_eq_false (by simpa using ha)
          exact ⟨hs.2.1, hs.1⟩
        · exact ih b hb2

/-- Escaped payload bytes stay below 256 when the payload bytes do. -/
theorem escapeBytes_lt (p : List Nat) (hp : ∀ x ∈ p, x < 256) :
    ∀ b ∈ escapeBytes p, b < 256 := by
  induction p with
  | nil => intro b hb; simp [escapeBytes] at hb
  | cons a rest ih =>
      intro b hb
      have ha : a < 256 := hp a (List.mem_cons_self a rest)
      have hrest : ∀ x ∈ rest, x < 256 := fun x hx => hp x (List.mem_cons_of_mem a hx)
      by_cases hesc : mustEscape a = true
      · rw [escapeBytes, if_pos hesc] at hb
        rcases List.mem_cons.mp hb with rfl | hb2
        · decide
        rcases List.mem_cons.mp hb2 with rfl | hb3
        · have hx : a ^^^ escapeMask < 2 ^ 8 :=
            Nat.xor_lt_two_pow (by omega) (by decide)
          omega
        · exact ih hrest b hb3
      · rw [escapeBytes, if_neg hesc] at hb
        rcases List.mem_cons.mp hb with rfl | hb2
        · exact ha
        · exact ih hrest b hb2

/-- Unescaping an escape pair yields the masked byte. -/
theorem unescapeBytes_cons_escape (prev : Option Nat) (c : Nat) (rest : List Nat) :
    unescapeBytes prev (escapeByte :: c :: rest) =
      (c ^^^ escapeMask) :: unescapeBytes (some (c ^^^ escapeMask)) rest :=
  rfl

/-- Unescaping an ordinary byte yields the byte itself. -/
theorem unescapeBytes_cons_plain (prev : Option Nat) (b : Nat) (rest : List Nat)
    (h1 : b ≠ escapeByte) (h2 : b ≠ repeatByte) :
    unescapeBytes prev (b :: rest) = b :: unescapeBytes (some b) rest := by
  rw [unescapeBytes.eq_def]
  simp [h1, h2]

/-- Unescaping inverts escaping, whatever byte was decoded before. -/
theorem unescapeBytes_escapeBytes (p : List Nat) :
    ∀ prev, unescapeBytes prev (escapeBytes p) = p := by
  induction p with
  | nil => intro prev; rfl
  | cons a rest ih =>
      intro prev
      by_cases hesc : mustEscape a = true
      · rw [escapeBytes, if_pos hesc, unescapeBytes_cons_escape, Nat.xor_cancel_right, ih]
      · have hs := of_mustEscape_eq_false (by simpa using hesc)
        rw [escapeBytes, if_neg hesc, unescapeBytes_cons_plain prev a _ hs.2.2.1 hs.2.2.2, ih]

/-- Left fold of addition accumulates the list sum. -/
theorem foldl_add_eq_sum (l : List Nat) : ∀ z : Nat, l.foldl (· + ·) z = z + l.sum := by
  induction l with
  | nil => intro z; simp
  | cons a rest ih =>
      intro z
      rw [List.foldl_cons, ih, List.sum_cons]
      omega

/-- The checksum is the list sum modulo 256. -/
theorem checksum_eq_sum_mod (l : List Nat) : checksum l = l.sum % 256 := by
  rw [checksum, foldl_add_eq_sum, Nat.zero_add]

/-- Checksums are below 256. -/
theorem checksum_lt (l : List Nat) : checksum l < 256 := by
  rw [checksum]
  exact Nat.mod_lt _ (by decide)

/-- Setting one element trades the old element for the new one in the sum. -/
theorem sum_set_add_get (l : List Nat) : ∀ (i b : Nat) (h : i < l.length),
    (l.set i b).sum + l.get ⟨i, h⟩ = l.sum + b := by
  induction l with
  | nil => intro i b h; simp at h
  | cons a rest ih =>
      intro i b h
      cases i with
      | zero => simp [List.set]; omega
      | succ n =>
          simp only [List.set, List.sum_cons, List.get_cons_succ]
          have := ih n b (by simpa using h)
          omega

/-- Splitting at the delimiter recovers the payload when the payload holds no
delimiter byte. -/
theorem splitAtDelim_append (l r : List Nat) (hl : ∀ b ∈ l, b ≠ delimByte) :
    splitAtDelim (l ++ delimByte :: r) = some (l, r) := by
  induction l with
  | nil => simp [splitAtDelim]
  | cons a as ih =>
      have ha : (a == delimByte) = false :=
        beq_eq_false_iff_ne.mpr (hl a (List.mem_cons_self a as))
      rw [List.cons_append, splitAtDelim, if_neg (by simp [ha]),
        ih (fun b hb => hl b (List.mem_cons_of_mem a hb))]

/-- The start-marker scan consumes exactly the start marker when it leads. -/
theorem dropToStart_cons_start (l : List Nat) :
    dropToStart (startByte :: l) = some l := by
  simp [dropToStart]

/-- Hexadecimal digits decode back to their value. -/
theorem hexVal_hexDigit (n : Nat) (h : n < 16) : hexVal (hexDigit n) = some n := by
  interval_cases n <;> rfl

/-- Decoding a well-formed frame whose checksum bytes carry hexadecimal values
compares the carried value with the checksum of the raw payload. -/
theorem decode_of_frame (noAck : Bool) (raw : List Nat) (d1 d2 h1 h2 : Nat) (tail : List Nat)
    (hraw : ∀ b ∈ raw, b ≠ delimByte)
    (h1v : hexVal d1 = some h1) (h2v : hexVal d2 = some h2) :
    decode noAck (startByte :: (raw ++ delimByte :: d1 :: d2 :: tail)) =
      if h1 * 16 + h2 == checksum raw then
        (DecodeResult.command (unescapeBytes none raw), if noAck then none else some ackByte)
      else (DecodeResult.malformed, if noAck then none else some nakByte) := by
  simp only [decode, dropToStart_cons_start, splitAtDelim_append raw (d1 :: d2 :: tail) hraw,
    h1v, h2v]

/-- Decoding an encoded packet succeeds with exactly the original payload,
emitting the acknowledgment byte when no-ack mode is off. -/
theorem decode_encode (noAck : Bool) (p : List Nat) :
    decode noAck (encode p) =
      (DecodeResult.command p, if noAck then none else some ackByte) := by
  have hck := checksum_lt (escapeBytes p)
  have h := decode_of_frame noAck (escapeBytes p)
      (hexDigit (checksum (escapeBytes p) / 16)) (hexDigit (checksum (escapeBytes p) % 16))
      (checksum (escapeBytes p) / 16) (checksum (escapeBytes p) % 16) []
      (fun b hb => (escapeBytes_not_framing p b hb).1)
      (hexVal_hexDigit _ (by omega)) (hexVal_hexDigit _ (by omega))
  rw [encode, List.cons_append]
  rw [show checksumDigits (checksum (escapeBytes p)) =
        hexDigit (checksum (escapeBytes p) / 16) :: hexDigit (checksum (escapeBytes p) % 16)
          :: ([] : List Nat) from rfl]
  rw [h, if_pos (by simp; omega), unescapeBytes_escapeBytes]

/-- Claim C4: the codec round-trip law — decoding an encoded payload yields a
command carrying exactly that payload, so re-encoding what decode produced
reproduces the encoded bytes: encode(decode(encode(payload))) =
encode(payload). -/
theorem encode_decode_encode_roundtrip (payload : List Nat) :
    (decode false (encode payload)).1 = DecodeResult.command payload ∧
    (∀ p2, (decode false (encode payload)).1 = DecodeResult.command p2 →
      encode p2 = encode payload) := by
  have h := decode_encode false payload
  constructor
  · rw [h]
  · intro p2 hp2
    rw [h] at hp2
    cases hp2
    rfl

/-- The round-trip theorem at a payload containing every special byte. -/
theorem encode_decode_encode_roundtrip_witness :
    (decode false (encode [36, 35, 125, 42, 71])).1 =
      DecodeResult.command [36, 35, 125, 42, 71] ∧
    encode [36, 35, 125, 42, 71] = encode [36, 35, 125, 42, 71] :=
  ⟨(encode_decode_encode_roundtrip [36, 35, 125, 42, 71]).1,
   (encode_decode_encode_roundtrip [36, 35, 125, 42, 71]).2 [36, 35, 125, 42, 71]
     (encode_decode_encode_roundtrip [36, 35, 125, 42, 71]).1⟩

/-- Claim C5, counterexample: a single-byte flip of a transmitted packet need
not produce a negative acknowledgment. Flipping the start marker or the
delimiter leaves the codec waiting for more bytes with no output byte; a
payload byte flipped to the delimiter can reframe the packet so that it
decodes — and dispatches — as a different command with a matching checksum;
and a checksum digit flipped to the other letter case still decodes to the
same value, so the packet is accepted. -/
theorem single_flip_not_always_nak :
    ((encode [65]).set 0 0 ≠ encode [65] ∧
      decode false ((encode [65]).set 0 0) = (DecodeResult.needMoreBytes, none)) ∧
    ((encode [65]).set 2 0 ≠ encode [65] ∧
      decode false ((encode [65]).set 2 0) = (DecodeResult.needMoreBytes, none)) ∧
    ((encode [65, 88, 52, 49]).set 2 35 ≠ encode [65, 88, 52, 49] ∧
      decode false ((encode [65, 88, 52, 49]).set 2 35) =
        (DecodeResult.command [65], some ackByte)) ∧
    ((encode [58]).set 4 65 ≠ encode [58] ∧
      decode false ((encode [58]).set 4 65) = (DecodeResult.command [58], some ackByte)) := by
  decide

/-- Every element of a set list that avoids the delimiter still avoids it. -/
theorem mem_set_ne_delim (t : List Nat) (i b : Nat) (ht : ∀ x ∈ t, x ≠ delimByte)
    (hb : b ≠ delimByte) : ∀ x ∈ t.set i b, x ≠ delimByte := by
  intro x hx
  rcases List.mem_or_eq_of_mem_set hx with h | rfl
  · exact ht x h
  · exact hb

/-- Setting a position inside the left part of an append stays in the left
part. -/
theorem set_append_left (l r : List Nat) : ∀ (i b : Nat), i < l.length →
    (l ++ r).set i b = l.set i b ++ r := by
  induction l with
  | nil => intro i b h; simp at h
  | cons a as ih =>
      intro i b h
      cases i with
      | zero => rfl
      | succ n =>
          show a :: (as ++ r).set n b = a :: (as.set n b ++ r)
          rw [ih n b (by simpa using h)]

/-- Changing one transmitted payload byte to a different byte value changes
the checksum. -/
theorem checksum_set_ne (t : List Nat) (i b : Nat) (hi : i < t.length)
    (ht : ∀ x ∈ t, x < 256) (hb : b < 256) (hne : b ≠ t.get ⟨i, hi⟩) :
    checksum (t.set i b) ≠ checksum t := by
  have hsum := sum_set_add_get t i b hi
  have hti : t.get ⟨i, hi⟩ < 256 := ht _ (t.get_mem i hi)
  simp only [checksum_eq_sum_mod]
  intro hcs
  omega

/-- Claim C5 (amended): flipping a single transmitted payload byte to a
different byte value below 256 other than the delimiter byte leaves a frame
whose checksum no longer matches, so the codec (no-ack mode disabled) emits
the negative-acknowledgment byte and dispatches no command. Flips of the
framing bytes or of a checksum digit, and payload flips to the delimiter
byte, are exempt — the counterexample shows those can go unnoticed or even
reframe the packet. -/
theorem payload_flip_rejected (payload : List Nat) (i b : Nat)
    (hbytes : ∀ x ∈ payload, x < 256) (hb : b < 256) (hbd : b ≠ delimByte)
    (hi : i < (escapeBytes payload).length)
    (hne : b ≠ (escapeBytes payload).get ⟨i, hi⟩) :
    decode false ((encode payload).set (i + 1) b) =
      (DecodeResult.malformed, some nakByte) := by
  have hesc256 : ∀ x ∈ escapeBytes payload, x < 256 := escapeBytes_lt payload hbytes
  have hck := checksum_lt (escapeBytes payload)
  have hflip : (encode payload).set (i + 1) b =
      startByte :: ((escapeBytes payload).set i b ++
        delimByte :: checksumDigits (checksum (escapeBytes payload))) := by
    rw [encode, set_append_left (startByte :: escapeBytes payload) _ (i + 1) b
      (by simp only [List.length_cons]; omega)]
    rfl
  have hframe := decode_of_frame false ((escapeBytes payload).set i b)
      (hexDigit (checksum (escapeBytes payload) / 16))
      (hexDigit (checksum (escapeBytes payload) % 16))
      (checksum (escapeBytes payload) / 16) (checksum (escapeBytes payload) % 16) []
      (mem_set_ne_delim _ i b (fun x hx => (escapeBytes_not_framing payload x hx).1) hbd)
      (hexVal_hexDigit _ (by omega)) (hexVal_hexDigit _ (by omega))
  have hcsne := checksum_set_ne (escapeBytes payload) i b hi hesc256 hb hne
  have hcond : ¬((checksum (escapeBytes payload) / 16 * 16 +
      checksum (escapeBytes payload) % 16 ==
        checksum ((escapeBytes payload).set i b)) = true) := by
    simp only [beq_iff_eq]
    intro hc
    exact hcsne (by omega)
  rw [hflip]
  rw [show checksumDigits (checksum (escapeBytes payload)) =
        hexDigit (checksum (escapeBytes payload) / 16)
          :: hexDigit (checksum (escapeBytes payload) % 16) :: ([] : List Nat) from rfl]
  rw [hframe, if_neg hcond]
  rfl

/-- The amended rejection theorem at the packet for payload byte 65 with its
payload byte flipped to 66. -/
theorem payload_flip_rejected_witness :
    decode false ((encode [65]).set 1 66) = (DecodeResult.malformed, some nakByte) :=
  payload_flip_rejected [65] 0 66 (by decide) (by decide) (by decide) (by decide) (by decide)

end Codec

namespace Powctl

/-- Claim C9: in the charger driver, the gpio read of
GetChargerChargeCurrentState executes at lock depth zero — the driver mutex is
not held — while every gpio write of SetChargerChargeCurrentState executes at
a positive lock depth, inside the scoped lock of the driver mutex. -/
theorem charger_gpio_locking :
    (∀ gv : GpioValue,
      (DriverStep.gpioGetValue, 0) ∈
        annotateLockDepth 0 (getChargerChargeCurrentStateSteps gv)) ∧
    (∀ (st : ChargeCurrentState) (v : GpioValue) (d : Nat),
      (DriverStep.gpioSetValue v, d) ∈
        annotateLockDepth 0 (setChargerChargeCurrentStateSteps st) → 0 < d) := by
  constructor
  · intro gv
    cases gv <;> simp [getChargerChargeCurrentStateSteps, annotateLockDepth]
  · intro st v d h
    cases st <;> cases v <;>
      simp [setChargerChargeCurrentStateSteps, annotateLockDepth] at h <;>
      omega

/-- The locking theorem at a high gpio read and at the not-charging write. -/
theorem charger_gpio_locking_witness :
    (DriverStep.gpioGetValue, 0) ∈
      annotateLockDepth 0 (getChargerChargeCurrentStateSteps GpioValue.high) ∧ 0 < 1 :=
  ⟨charger_gpio_locking.1 GpioValue.high,
   charger_gpio_locking.2 ChargeCurrentState.notCharging GpioValue.high 1 (by decide)⟩

end Powctl

namespace Fs

/-- Claim C10: fs::GetFileTimeStamp succeeds exactly when the raw debug lookup
GetFileTimeStampRawForDebug succeeds on the path; on success the out record is
a copy of the raw record, and on failure the out record keeps its prior
value. -/
theorem getFileTimeStamp_result {E T : Type} (env : FsEnv E T) (path : String) (out0 : T) :
    (exceptIsOk (GetFileTimeStamp env path out0).1 =
      exceptIsOk (GetFileTimeStampRawForDebug env path)) ∧
    (∀ raw, GetFileTimeStampRawForDebug env path = .ok raw →
      GetFileTimeStamp env path out0 = (.ok (), raw)) ∧
    (∀ e, GetFileTimeStampRawForDebug env path = .error e →
      GetFileTimeStamp env path out0 = (.error e, out0)) := by
  unfold GetFileTimeStamp
  cases h : GetFileTimeStampRawForDebug env path with
  | ok raw =>
      refine ⟨rfl, ?_, ?_⟩
      · intro x hx
        cases hx
        rfl
      · intro e he
        cases he
  | error e =>
      refine ⟨rfl, ?_, ?_⟩
      · intro x hx
        cases hx
      · intro x hx
        cases hx
        rfl

/-- The timestamp theorem at the example environment: the lookup succeeds and
the out record receives the raw record. -/
theorem getFileTimeStamp_result_witness :
    GetFileTimeStamp fsEnvExample "/save/file.bin" 0 = (.ok (), 7) :=
  (getFileTimeStamp_result fsEnvExample "/save/file.bin" 0).2.1 7 rfl

end Fs

end Atmosphere
